import Mathlib

/-!
Verification development for the openllm generation engine
(`openllm-python/src/openllm/_runners.py` and `openllm-python/src/openllm/_llm.py`).

The definitions below are a shallow embedding of the Python source:

* `PyTorchRunnable.generate_iterator` (_runners.py lines 176-343) is embedded as
  `generateIterator` over an abstract model/tokenizer;
* the backend registry (_runners.py lines 17-44) as `registryDecorate`,
  `registryGet`, `instantiateCls`;
* the delta reconciler of `LLM.generate_iterator` (_llm.py lines 360-379) as
  `llmGenerateIteratorText`.

Python peculiarities that matter to the claims are modelled explicitly:
heterogeneous list membership (`int in [list, ..., int]`), `str.rfind`,
negative-index slicing `lst[-k:]`, unbound-local `NameError`, and the fact
that statements placed after the decode loop (and not in a `finally`) do not
run when an exception propagates.
-/

/-! ## Python value/slicing primitives -/

/-- A Python value that can appear in the `stop_token_ids` list built at
_runners.py lines 199-201: either a bare `int` (the eos token id) or a
`list[int]` (the encoding of one stop string). -/
inductive PyVal where
  | pyInt (n : Nat)
  | pyList (l : List Nat)
deriving DecidableEq, Repr

/-- Python `==` on such values: an `int` never equals a `list`. -/
def pyEq : PyVal → PyVal → Bool
  | .pyInt a, .pyInt b => a == b
  | .pyList a, .pyList b => a == b
  | _, _ => false

/-- Python `in` membership test on a list of such values. -/
def pyMem (v : PyVal) (l : List PyVal) : Bool := l.any (pyEq v)

/-- Python slice `l[start:]` including negative-index semantics:
for `start < 0` the slice begins at `max 0 (len l + start)`. -/
def pySliceFrom (l : List α) (start : Int) : List α :=
  if 0 ≤ start then l.drop start.toNat else l.drop (l.length - (-start).toNat)

/-- Character list of a Python `str` (Python strings are sequences of code
points, as is `String.data`). -/
def strChars (s : String) : List Char := s.data

/-- Python `len` on a `str`. -/
def pyLen (s : String) : Nat := s.data.length

/-- Python `s[:n]`. -/
def pyTake (s : String) (n : Nat) : String := ⟨s.data.take n⟩

/-- Python `s[n:]`. -/
def pyStrDrop (s : String) (n : Nat) : String := ⟨s.data.drop n⟩

/-- Highest position `p` (`0 ≤ p ≤ len s`) at which `pat` occurs in `s`,
if any: the search Python `str.rfind` performs with start index 0. -/
def rfindPos (s pat : List Char) : Option Nat :=
  (List.range (s.length + 1)).reverse.find? (fun p => pat.isPrefixOf (s.drop p))

/-- Python `s.rfind(pat, 0)`: rightmost match position, `-1` when absent. -/
def pyRfind (s pat : String) : Int :=
  match rfindPos s.data pat.data with
  | some p => (p : Int)
  | none => -1

/-! ## Data model (openllm_core._schemas, as consumed by _runners.py) -/

/-- The `CompletionChunk` schema: one alternative's output fragment. -/
structure CompletionChunk where
  index : Nat
  text : String
  token_ids : List Nat
  cumulative_logprob : Rat
  logprobs : Option (List (Option (Nat × Rat)))
  finish_reason : Option String
deriving DecidableEq, Repr

/-- The `GenerationOutput` schema: one emission of the engine. -/
structure GenerationOutput where
  prompt : String
  finished : Bool
  outputs : List CompletionChunk
  prompt_token_ids : List Nat
  prompt_logprobs : Option (List (Nat × Rat))
  request_id : String
deriving DecidableEq, Repr

/-- Python exceptions the embedded code can raise. `nameError` stands for
reading an unbound local, `typeError` for `len(None)` / gated `__new__`,
`keyError` for a failed dict lookup, `executionError` for a failing forward
pass (e.g. CUDA OOM), `indexError` for an out-of-range list index,
`notFoundError` for openllm's `NotFoundError` exception class (never raised
by the embedded code, present so statements can distinguish it). -/
inductive RunError where
  | nameError
  | typeError
  | keyError
  | notFoundError
  | notImplementedError
  | executionError
  | indexError
  | attributeError
deriving DecidableEq, Repr

/-! ## Tokenizer / model / config abstraction -/

/-- The tokenizer capability consumed by the engine (spec section 6):
`encode`, `decode` (with the fixed keyword arguments of line 287 folded in)
and `eos_token_id`. -/
structure Tokenizer where
  encode : String → List Nat
  decode : List Nat → String
  eos_token_id : Nat

/-- What one forward pass of the model yields at a decode step:
`processed` is `last_token_logits` after the logits processor
(lines 246-257), indexed by vocabulary id; `rawLogSoftmax` is
`log_softmax(logits[0, -1, :])` (line 272) looked up at a token id. -/
structure StepLogits where
  processed : List Rat
  rawLogSoftmax : Nat → Rat

/-- The backend model: architecture flag plus the forward pass, a function of
the accumulated `output_token_ids` (prompt prefix then generated tokens) -
prefill and cached decode steps of lines 226-245 both compute the logits of
the full history, so this is the loop's interface to the model. The forward
pass may fail (e.g. CUDA OOM), which the claims about error paths need. -/
structure Model where
  is_encoder_decoder : Bool
  forward : List Nat → Except RunError StepLogits

/-- The generation configuration fields read by the loop. The external
`model_construct_env` (openllm_core, not under src/) is modelled from the
spec as carrying the caller's numeric generation parameters through
unchanged (spec section 3, GenerationRequest); `context_length` is the
resolved value (the `context_length` attr, or `get_context_length` of the
model config when absent, lines 190-192). -/
structure GenConfig where
  max_new_tokens : Nat
  context_length : Nat
  temperature : Rat
  top_p : Rat
  logprobs : Bool
  prompt_logprobs : Bool

/-! ## Prompt truncation and stop token ids (lines 189-201) -/

/-- Lines 193-197: `max_src_len` is `context_length` for encoder-decoder
models and `context_length - max_new_tokens - 1` otherwise, and the prompt
is replaced by `prompt_token_ids[-max_src_len:]` with Python slice
semantics. -/
def truncPrompt (encdec : Bool) (context_length max_new_tokens : Nat) (prompt : List Nat) : List Nat :=
  let max_src_len : Int := if encdec then (context_length : Int) else (context_length : Int) - max_new_tokens - 1
  pySliceFrom prompt (-max_src_len)

/-- Lines 199-201: each stop string is encoded to a `list[int]` and those
lists form `stop_token_ids`; then the eos token id is appended as a bare
`int` whenever it is not already a member (an `int` never equals a `list`,
so it always is appended). `stop = none` models `stop=None` (falsy). -/
def stopTokenIds (tok : Tokenizer) (stop : Option (List String)) : List PyVal :=
  let base : List PyVal :=
    match stop with
    | none => []
    | some ss => ss.map (fun it => PyVal.pyList (tok.encode it))
  if pyMem (.pyInt tok.eos_token_id) base then base else base ++ [.pyInt tok.eos_token_id]

/-! ## Sampling (lines 259-268) -/

/-- First index of the maximum entry of a logits vector (what
`torch.topk(last_token_logits, 2)` puts first; ties resolved to the lowest
index, a fixed deterministic choice). -/
def argmaxIdx (l : List Rat) : Nat :=
  (List.range l.length).foldl (fun best i => if l.getD i 0 > l.getD best 0 then i else best) 0

/-- Indices of the `k` largest entries in decreasing order of value,
excluding `excl`: the index list `torch.topk` returns. -/
def topkIdxAux (l : List Rat) : Nat → List Nat → List Nat
  | 0, _ => []
  | k + 1, excl =>
    match (List.range l.length).filter (fun i => !excl.contains i) with
    | [] => []
    | c :: cs =>
      let b := cs.foldl (fun best i => if l.getD i 0 > l.getD best 0 then i else best) c
      b :: topkIdxAux l k (b :: excl)

/-- The call `torch.topk(last_token_logits, 2)` of line 262 as an index list. -/
def topkIdx (l : List Rat) (k : Nat) : List Nat := topkIdxAux l k []

/-! ## The per-request context of `PyTorchRunnable.generate_iterator` -/

/-- Everything one call of `generate_iterator` receives: the backend model
and tokenizer (engine state fixed at construction), the generation config,
the random sampler (the first token `torch.multinomial` of line 265 would
draw at step `i` - generation only ever uses `tokens[0]`), the `stop`
argument and the prompt. -/
structure Ctx where
  M : Model
  tok : Tokenizer
  cfg : GenConfig
  sampler : Nat → Nat
  stop : Option (List String)
  prompt_token_ids : List Nat
  request_id : String

/-- The truncated prompt of line 197, which the rest of the call uses. -/
def Ctx.trunc (c : Ctx) : List Nat :=
  truncPrompt c.M.is_encoder_decoder c.cfg.context_length c.cfg.max_new_tokens c.prompt_token_ids

/-- The `input_len` local of line 209. -/
def Ctx.inputLen (c : Ctx) : Nat := c.trunc.length

/-- The `stop_token_ids` list of lines 199-201. -/
def Ctx.stopTids (c : Ctx) : List PyVal := stopTokenIds c.tok c.stop

/-- The mutable locals of the decode loop (lines 219-224 initialise them).
Locals that Python leaves unbound until first assignment (`token`, `text`,
the `logprobs` tensor) are `Option`s; reading `none` is a `NameError`. -/
structure LoopState where
  output_token_ids : List Nat
  token : Option Nat
  stopped : Bool
  text : Option String
  cumulative_logprob : Rat
  sample_logprobs : List (Option (Nat × Rat))
  prompt_logprobs : List (Nat × Rat)
  prompt_token_indices : List Nat
  logprobsVar : Option (Nat → Rat)

/-- Lines 205-224: state before the first loop iteration. -/
def initState (c : Ctx) : LoopState :=
  { output_token_ids := c.trunc
    token := none
    stopped := false
    text := none
    cumulative_logprob := 0
    sample_logprobs := [none]
    prompt_logprobs := []
    prompt_token_indices := []
    logprobsVar := none }

/-- Lines 276-281: the `prompt_logprobs` accumulation pass over the prompt
tokens. Reading the `logprobs` tensor while it was never assigned is the
unbound-local `NameError` (the index append of line 280 precedes the read
of line 281). -/
def promptLoop (lpVar : Option (Nat → Rat)) :
    List Nat → List Nat → List (Nat × Rat) → Except RunError (List Nat × List (Nat × Rat))
  | [], idxs, plps => .ok (idxs, plps)
  | tid :: rest, idxs, plps =>
    if idxs.contains tid then promptLoop lpVar rest idxs plps
    else
      match lpVar with
      | none => .error .nameError
      | some lp => promptLoop lpVar rest (idxs ++ [tid]) (plps ++ [(tid, lp tid)])

/-- Lines 290-294: scan the configured stop strings in iteration order; the
first one found by `text.rfind(it, 0)` truncates the text at that (rightmost)
match position, sets `stopped` and breaks. -/
def stringScan : List String → String → Bool → String × Bool
  | [], text, stopped => (text, stopped)
  | it :: rest, text, stopped =>
    let pos := pyRfind text it
    if pos ≠ -1 then (pyTake text pos.toNat, true) else stringScan rest text stopped

/-- Lines 261-268: the drawn token. In the greedy branch
(`temperature < 1e-5 or top_p < 1e-8`) the loop computes the top-2 indices
and always uses the first (`tokens[0]`); otherwise `tokens[0]` is the first
multinomial draw, supplied by the sampler oracle. -/
def stepToken (c : Ctx) (i : Nat) (sl : StepLogits) : Nat :=
  if c.cfg.temperature < mkRat 1 100000 ∨ c.cfg.top_p < mkRat 1 100000000 then
    (topkIdx sl.processed 2).headD 0
  else c.sampler i

/-- Lines 270-274: the value of the `logprobs` local after this iteration's
conditional assignment (it retains its previous binding when
`config['logprobs']` is unset). -/
def stepLpVar (c : Ctx) (st : LoopState) (sl : StepLogits) : Option (Nat → Rat) :=
  if c.cfg.logprobs then some sl.rawLogSoftmax else st.logprobsVar

/-- Lines 266-315 on the success path: draw the token, extend the history,
update the logprob accumulators, run the token-level (line 283) and
string-level (lines 285-294) stop checks, and build the non-final emission
of lines 299-315 together with the updated locals. `pidxPlp` is the result
of the `prompt_logprobs` pass, `ss` the non-`None` stop iterable. -/
def stepSuccess (c : Ctx) (i : Nat) (st : LoopState) (sl : StepLogits)
    (pidxPlp : List Nat × List (Nat × Rat)) (ss : List String) :
    GenerationOutput × LoopState :=
  let token := stepToken c i sl
  let output' := st.output_token_ids ++ [token]
  let token_logprobs : Rat := if c.cfg.logprobs then sl.rawLogSoftmax token else 0
  let cum' : Rat :=
    if c.cfg.logprobs then st.cumulative_logprob + sl.rawLogSoftmax token
    else st.cumulative_logprob
  let stopped0 := pyMem (.pyInt token) c.stopTids
  let tmp := output'.drop c.inputLen
  let text0 := c.tok.decode tmp
  let ts := if ss.length > 0 then stringScan ss text0 stopped0 else (text0, stopped0)
  let slp' :=
    if c.cfg.logprobs then st.sample_logprobs ++ [some (token, token_logprobs)]
    else st.sample_logprobs
  ({ prompt := ""
     finished := false
     outputs := [{ index := 0
                   text := ts.1
                   token_ids := tmp
                   cumulative_logprob := cum'
                   logprobs := if c.cfg.logprobs then some slp' else none
                   finish_reason := none }]
     prompt_token_ids := c.trunc
     prompt_logprobs := if c.cfg.prompt_logprobs then some pidxPlp.2 else none
     request_id := c.request_id },
   { output_token_ids := output'
     token := some token
     stopped := ts.2
     text := some ts.1
     cumulative_logprob := cum'
     sample_logprobs := slp'
     prompt_logprobs := pidxPlp.2
     prompt_token_indices := pidxPlp.1
     logprobsVar := stepLpVar c st sl })

/-- One iteration of the decode loop, lines 226-317 up to (and including)
building the non-final emission. Returns the yielded `GenerationOutput` and
the updated locals, or the exception the iteration raises: a failing
forward pass, the `NameError` of the `prompt_logprobs` pass (lines
276-281), or the `TypeError` of `len(stop)` when `stop` is `None`
(line 289). -/
def decodeStep (c : Ctx) (i : Nat) (st : LoopState) : Except RunError (GenerationOutput × LoopState) :=
  match c.M.forward st.output_token_ids with
  | .error e => .error e
  | .ok sl =>
    match (if c.cfg.prompt_logprobs then
             promptLoop (stepLpVar c st sl) c.trunc st.prompt_token_indices st.prompt_logprobs
           else .ok (st.prompt_token_indices, st.prompt_logprobs)) with
    | .error e => .error e
    | .ok pidxPlp =>
      match c.stop with
      | none => .error .typeError
      | some ss => .ok (stepSuccess c i st sl pidxPlp ss)

/-- What the `for` loop of line 226 produces: the non-final emissions, the
locals at exit, the for-else flag `ranAll` (true when the range was
exhausted without `break`) and the first exception, if any. -/
structure LoopOut where
  emissions : List GenerationOutput
  state : LoopState
  ranAll : Bool
  error : Option RunError

/-- The decode loop: yield each step's emission, `break` when `stopped`. -/
def genLoop (c : Ctx) : Nat → Nat → LoopState → LoopOut
  | 0, _, st => ⟨[], st, true, none⟩
  | fuel + 1, i, st =>
    match decodeStep c i st with
    | .error e => ⟨[], st, false, some e⟩
    | .ok ost =>
      if ost.2.stopped then ⟨[ost.1], ost.2, false, none⟩
      else
        let r := genLoop c fuel (i + 1) ost.2
        ⟨ost.1 :: r.emissions, r.state, r.ranAll, r.error⟩

/-- Result of one whole call: the stream of emissions, the exception that
escaped (if any), and whether the cleanup statements of lines 341-343
(`del past_key_values, out; gc.collect(); torch.cuda.empty_cache()`) were
reached - they sit after the loop with no `try`/`finally`, so an escaping
exception skips them. -/
structure RunResult where
  emissions : List GenerationOutput
  error : Option RunError
  cleanupRan : Bool
deriving DecidableEq, Repr

/-- The whole of `PyTorchRunnable.generate_iterator`, lines 176-343: truncation, stop
token ids, the encoder-decoder logprobs guard of lines 211-213, the decode
loop, the for-else `finish_reason` resolution of lines 318-321 and the final
emission of lines 322-338 (whose chunk carries the full `output_token_ids`
and the last computed `text` - an unbound-local `NameError` when the loop
never ran). -/
def generateIterator (c : Ctx) : RunResult :=
  if c.M.is_encoder_decoder && c.cfg.logprobs then ⟨[], some .notImplementedError, false⟩
  else
    let r := genLoop c c.cfg.max_new_tokens 0 (initState c)
    match r.error with
    | some e => ⟨r.emissions, some e, false⟩
    | none =>
      let fr0 : Option String := if r.ranAll then some "length" else none
      let fr : Option String := if r.state.stopped then some "stop" else fr0
      match r.state.text with
      | none => ⟨r.emissions, some .nameError, false⟩
      | some t =>
        ⟨r.emissions ++
          [{ prompt := ""
             finished := true
             outputs := [{ index := 0
                           text := t
                           token_ids := r.state.output_token_ids
                           cumulative_logprob := r.state.cumulative_logprob
                           logprobs := if c.cfg.logprobs then some r.state.sample_logprobs else none
                           finish_reason := fr }]
             prompt_token_ids := c.trunc
             prompt_logprobs := if c.cfg.prompt_logprobs then some r.state.prompt_logprobs else none
             request_id := c.request_id }],
         none, true⟩

/-- Proof-side iteration of `decodeStep` without the `break`: the locals
after `k` straight-line steps, or the first exception. -/
def iterSteps (c : Ctx) : Nat → Except RunError LoopState
  | 0 => .ok (initState c)
  | k + 1 =>
    match iterSteps c k with
    | .error e => .error e
    | .ok st =>
      match decodeStep c k st with
      | .error e => .error e
      | .ok ost => .ok ost.2

/-- The `stopped` flag after `k` straight-line steps (`none` when some step
raised). `stoppedAfter c (k+1) = some false` says step `k` executed without
an exception and matched no stop condition. -/
def stoppedAfter (c : Ctx) (k : Nat) : Option Bool :=
  (iterSteps c k).toOption.map (fun st => st.stopped)

/-! ## Concrete instances for witnesses and counterexamples -/

/-- Concatenation of a list of strings. -/
def concatTexts (l : List String) : String := ⟨(l.map String.data).flatten⟩

/-- A causal model with fixed processed logits at every step. -/
def modelConst (v : List Rat) : Model :=
  { is_encoder_decoder := false, forward := fun _ => .ok ⟨v, fun _ => 0⟩ }

/-- Greedy config: `temperature = 0 < 1e-5`, large context, no logprobs. -/
def cfgGreedy (n : Nat) : GenConfig :=
  { max_new_tokens := n, context_length := 100, temperature := 0, top_p := 1
    logprobs := false, prompt_logprobs := false }

/-- Tokenizer whose token 4 decodes to the two-occurrence text chunk
`"abab"`, with the stop string `"ab"` encodable. -/
def tokC2 : Tokenizer :=
  { encode := fun s => if s = "ab" then [1, 2] else []
    decode := fun l => concatTexts (l.map fun t =>
      if t = 1 then "a" else if t = 2 then "b" else if t = 4 then "abab" else "")
    eos_token_id := 0 }

/-- Greedy run that draws token 4 (decoding to `"abab"`) at the first step,
with stop string `"ab"`. -/
def ctxC2 : Ctx :=
  { M := modelConst [0, 0, 0, 0, 1], tok := tokC2, cfg := cfgGreedy 3
    sampler := fun _ => 0, stop := some ["ab"], prompt_token_ids := [9]
    request_id := "r2" }

/-- Model that greedily draws tokens 1, 2, 3 at successive steps (the
processed logits depend on the history length). -/
def modelC4 : Model :=
  { is_encoder_decoder := false
    forward := fun h => .ok ⟨(match h.length with
      | 1 => [0, 1] | 2 => [0, 0, 1] | _ => [0, 0, 0, 1]), fun _ => 0⟩ }

/-- Tokenizer decoding tokens 1, 2, 3 to `"X"`, `"a"`, `"b"`. -/
def tokC4 : Tokenizer :=
  { encode := fun s => if s = "ab" then [2, 3] else []
    decode := fun l => concatTexts (l.map fun t =>
      if t = 1 then "X" else if t = 2 then "a" else if t = 3 then "b" else "")
    eos_token_id := 0 }

/-- Greedy run producing stream texts `"X"`, `"Xa"`, `"X"` (the stop string
`"ab"` appears at step 2 and `rfind` truncation shrinks the text). -/
def ctxC4 : Ctx :=
  { M := modelC4, tok := tokC4, cfg := cfgGreedy 5
    sampler := fun _ => 0, stop := some ["ab"], prompt_token_ids := [9]
    request_id := "r4" }

/-- Tokenizer where every generated token decodes to `"z"`: no stop string
or eos token is ever produced. -/
def tokPlain : Tokenizer :=
  { encode := fun s => if s = "q" then [5] else []
    decode := fun l => concatTexts (l.map fun t => if t = 1 then "z" else "")
    eos_token_id := 0 }

/-- Run that never stops: greedy token 1 at every step, stop string `"q"`
never decoded, eos 0 never drawn. Used with `max_new_tokens = 2`. -/
def ctxC1w : Ctx :=
  { M := modelConst [0, 1], tok := tokPlain, cfg := cfgGreedy 2
    sampler := fun _ => 0, stop := some ["q"], prompt_token_ids := [7]
    request_id := "r1" }

/-- The same request with `max_new_tokens = 0`. -/
def ctxC1z : Ctx :=
  { ctxC1w with cfg := cfgGreedy 0 }

/-- A model whose forward pass raises once one token has been generated
(history longer than the one-token prompt), standing in for a mid-loop
execution failure such as CUDA OOM. -/
def modelC6 : Model :=
  { is_encoder_decoder := false
    forward := fun h =>
      if h.length ≤ 1 then .ok ⟨[0, 1], fun _ => 0⟩ else .error .executionError }

/-- Run whose second decode step raises inside the loop. -/
def ctxC6 : Ctx :=
  { M := modelC6, tok := tokPlain, cfg := cfgGreedy 3
    sampler := fun _ => 0, stop := some ["q"], prompt_token_ids := [7]
    request_id := "r6" }

/-- Request with `prompt_logprobs` set but not `logprobs`. -/
def ctxC10 : Ctx :=
  { M := modelConst [0, 1], tok := tokPlain
    cfg := { cfgGreedy 2 with prompt_logprobs := true }
    sampler := fun _ => 0, stop := some ["q"], prompt_token_ids := [7]
    request_id := "r10" }


/-! ## Structural lemmas about one decode step -/

/-- Shape of a successful decode step: the yielded emission is non-final,
carries the request id, the truncated prompt, and a single index-0 chunk
with no finish reason; the chunk's `token_ids` are the generated suffix of
the updated history, which extends the old history by exactly the drawn
token; and the `text` local is assigned the chunk's text. -/
theorem decodeStep_ok_spec (c : Ctx) (i : Nat) (st : LoopState) (o : GenerationOutput)
    (st' : LoopState) (h : decodeStep c i st = .ok (o, st')) :
    o.finished = false ∧ o.request_id = c.request_id ∧ o.prompt_token_ids = c.trunc ∧
    (∃ ch, o.outputs = [ch] ∧ ch.finish_reason = none ∧
      ch.token_ids = st'.output_token_ids.drop c.inputLen ∧ st'.text = some ch.text) ∧
    (∃ tk, st'.output_token_ids = st.output_token_ids ++ [tk]) := by
  unfold decodeStep at h
  split at h
  · exact absurd h (by simp)
  split at h
  · exact absurd h (by simp)
  split at h
  · exact absurd h (by simp)
  rw [Except.ok.injEq] at h
  have ho : o = (stepSuccess c i st _ _ _).1 := congrArg Prod.fst h.symm
  have hs : st' = (stepSuccess c i st _ _ _).2 := congrArg Prod.snd h.symm
  subst ho hs
  exact ⟨rfl, rfl, rfl, ⟨_, rfl, rfl, rfl, rfl⟩, ⟨_, rfl⟩⟩

/-- Decompose a successful straight-line iteration: the state after `k + 1`
steps comes from one decode step after `k` steps. -/
theorem iterSteps_succ_ok (c : Ctx) (k : Nat) (st' : LoopState)
    (h : iterSteps c (k + 1) = .ok st') :
    ∃ st o, iterSteps c k = .ok st ∧ decodeStep c k st = .ok (o, st') := by
  unfold iterSteps at h
  split at h
  · exact absurd h (by simp)
  rename_i st hst
  split at h
  · exact absurd h (by simp)
  rename_i ost host
  refine ⟨st, ost.1, hst, ?_⟩
  rw [host, ← Except.ok.inj h]

/-- A defined `stoppedAfter` flag pins down the state of the straight-line
iteration. -/
theorem stoppedAfter_eq_some (c : Ctx) (k : Nat) (b : Bool)
    (h : stoppedAfter c k = some b) :
    ∃ st, iterSteps c k = .ok st ∧ st.stopped = b := by
  unfold stoppedAfter at h
  cases hit : iterSteps c k with
  | error e => rw [hit] at h; simp [Except.toOption] at h
  | ok st =>
    rw [hit] at h
    simp only [Except.toOption, Option.map_some'] at h
    exact ⟨st, rfl, Option.some.inj h⟩

/-- Definitional unfolding of `genLoop` at a positive fuel. -/
theorem genLoop_succ (c : Ctx) (fuel i : Nat) (st : LoopState) :
    genLoop c (fuel + 1) i st =
      match decodeStep c i st with
      | .error e => ⟨[], st, false, some e⟩
      | .ok ost =>
        if ost.2.stopped then ⟨[ost.1], ost.2, false, none⟩
        else
          ⟨ost.1 :: (genLoop c fuel (i + 1) ost.2).emissions, (genLoop c fuel (i + 1) ost.2).state,
           (genLoop c fuel (i + 1) ost.2).ranAll, (genLoop c fuel (i + 1) ost.2).error⟩ := rfl

/-- If no stop condition fires (and no exception is raised) during the first
`N` straight-line steps, the decode loop runs its whole range, emitting one
non-final output per step, and exits with the straight-line state. -/
theorem genLoop_noStop (c : Ctx) (N : Nat)
    (H : ∀ k, k < N → stoppedAfter c (k + 1) = some false) :
    ∀ fuel i st, i + fuel = N → iterSteps c i = .ok st →
    ∃ es stN, genLoop c fuel i st = ⟨es, stN, true, none⟩ ∧ es.length = fuel ∧
      (∀ e ∈ es, e.finished = false) ∧ iterSteps c N = .ok stN := by
  intro fuel
  induction fuel with
  | zero =>
    intro i st hiN hit
    exact ⟨[], st, rfl, rfl, by simp, by rw [← hiN, Nat.add_zero]; exact hit⟩
  | succ fuel ih =>
    intro i st hiN hit
    have hiltN : i < N := by omega
    obtain ⟨st1, hit1, hstop⟩ := stoppedAfter_eq_some c (i + 1) false (H i hiltN)
    obtain ⟨st0, o, hit0, ho⟩ := iterSteps_succ_ok c i st1 hit1
    rw [hit] at hit0
    cases Except.ok.inj hit0
    obtain ⟨es, stN, hge, hlen, hfin, hitN⟩ := ih (i + 1) st1 (by omega) hit1
    have step : genLoop c (fuel + 1) i st =
        ⟨o :: (genLoop c fuel (i + 1) st1).emissions, (genLoop c fuel (i + 1) st1).state,
         (genLoop c fuel (i + 1) st1).ranAll, (genLoop c fuel (i + 1) st1).error⟩ := by
      rw [genLoop_succ, ho]
      simp [hstop]
    refine ⟨o :: es, stN, ?_, by simp [hlen], ?_, hitN⟩
    · rw [step, hge]
    · intro e he
      rcases List.mem_cons.mp he with rfl | he2
      · exact (decodeStep_ok_spec c i st e st1 ho).1
      · exact hfin e he2

/-- After at least one straight-line step the `text` local is assigned. -/
theorem iterSteps_text_some (c : Ctx) (k : Nat) (st' : LoopState)
    (h : iterSteps c (k + 1) = .ok st') : ∃ t, st'.text = some t := by
  obtain ⟨st, o, _, ho⟩ := iterSteps_succ_ok c k st' h
  obtain ⟨_, _, _, ⟨ch, _, _, _, htext⟩, _⟩ := decodeStep_ok_spec c k st o st' ho
  exact ⟨ch.text, htext⟩

/-- Claim C1 (amended): for a request that reaches the decode loop with
`max_new_tokens = N`, provided `N` is at least 1 and all `N` steps execute
without raising and without any stop condition (token-level or string-level)
matching, the stream is exactly `N` emissions with `finished = false`
followed by one final emission with `finished = true` whose single chunk has
`finish_reason = "length"`. (The claim as frozen also covers `N = 0`, where
the code instead raises a `NameError`; see the counterexample.) -/
theorem claim1_amended (c : Ctx) (N : Nat)
    (hN : c.cfg.max_new_tokens = N) (h1 : 1 ≤ N)
    (hg : (c.M.is_encoder_decoder && c.cfg.logprobs) = false)
    (H : ∀ k, k < N → stoppedAfter c (k + 1) = some false) :
    (generateIterator c).error = none ∧
    (generateIterator c).emissions.length = N + 1 ∧
    ((generateIterator c).emissions.take N).all (fun e => !e.finished) = true ∧
    ((generateIterator c).emissions.getLast?).map
      (fun e => (e.finished, e.outputs.map (fun ch => ch.finish_reason))) =
      some (true, [some "length"]) := by
  obtain ⟨es, stN, hge, hlen, hfin, hitN⟩ :=
    genLoop_noStop c N H N 0 (initState c) (by omega) rfl
  have hstopN : stN.stopped = false := by
    have hH := H (N - 1) (by omega)
    rw [show N - 1 + 1 = N by omega] at hH
    obtain ⟨st2, hit2, hsp⟩ := stoppedAfter_eq_some c N false hH
    rw [hitN] at hit2
    cases Except.ok.inj hit2
    exact hsp
  obtain ⟨t, ht⟩ := iterSteps_text_some c (N - 1) stN
    (by rw [show N - 1 + 1 = N by omega]; exact hitN)
  have hrun : generateIterator c =
      ⟨es ++ [{ prompt := ""
                finished := true
                outputs := [{ index := 0
                              text := t
                              token_ids := stN.output_token_ids
                              cumulative_logprob := stN.cumulative_logprob
                              logprobs := if c.cfg.logprobs then some stN.sample_logprobs else none
                              finish_reason := some "length" }]
                prompt_token_ids := c.trunc
                prompt_logprobs := if c.cfg.prompt_logprobs then some stN.prompt_logprobs else none
                request_id := c.request_id }], none, true⟩ := by
    unfold generateIterator
    rw [hg, hN, hge]
    simp [hstopN, ht]
  rw [hrun]
  refine ⟨rfl, by simp [hlen], ?_, ?_⟩
  · rw [List.take_left' hlen]
    simp only [List.all_eq_true, Bool.not_eq_eq_eq_not, Bool.not_true]
    intro e he
    simp [hfin e he]
  · rw [List.getLast?_concat]
    simp

/-- Witness for claim C1: the concrete never-stopping greedy request
`ctxC1w` with `max_new_tokens = 2` satisfies the hypotheses, and the theorem
yields its 2-plus-1 emission shape. -/
theorem claim1_witness :
    (ctxC1w.cfg.max_new_tokens = 2 ∧ 1 ≤ 2 ∧
      (ctxC1w.M.is_encoder_decoder && ctxC1w.cfg.logprobs) = false ∧
      (∀ k, k < 2 → stoppedAfter ctxC1w (k + 1) = some false)) ∧
    ((generateIterator ctxC1w).error = none ∧
      (generateIterator ctxC1w).emissions.length = 2 + 1 ∧
      ((generateIterator ctxC1w).emissions.take 2).all (fun e => !e.finished) = true ∧
      ((generateIterator ctxC1w).emissions.getLast?).map
        (fun e => (e.finished, e.outputs.map (fun ch => ch.finish_reason))) =
        some (true, [some "length"])) :=
  ⟨⟨rfl, by omega, rfl, by decide⟩,
   claim1_amended ctxC1w 2 rfl (by omega) rfl (by decide)⟩

/-- Counterexample to claim C1 as frozen: at `max_new_tokens = 0` (with a
non-`None` stop iterable and, vacuously, no stop condition matching during
the 0 steps) the code emits nothing at all and raises a `NameError` (the
final yield of line 328 reads the never-assigned `text` local), instead of
the claimed 0 non-final emissions plus one final `"length"` emission. -/
theorem claim1_counterexample :
    ctxC1z.cfg.max_new_tokens = 0 ∧ ctxC1z.stop = some ["q"] ∧
    generateIterator ctxC1z = ⟨[], some RunError.nameError, false⟩ ∧
    (generateIterator ctxC1z).emissions.length ≠ 0 + 1 := by
  refine ⟨rfl, rfl, by decide, by decide⟩

/-- Definitional unfolding of `genLoop` at zero fuel. -/
theorem genLoop_zero (c : Ctx) (i : Nat) (st : LoopState) :
    genLoop c 0 i st = ⟨[], st, true, none⟩ := rfl

/-- Invariant of the decode loop on error-free executions: every emission is
non-final with the request's id and a single index-0 chunk; the exit state's
history extends the entry state's by one token per emission; when nothing
was emitted the state is unchanged; and the last emission's chunk holds
exactly the generated suffix of the exit history, with the `text` local
equal to its text. -/
theorem genLoop_spec (c : Ctx) :
    ∀ fuel i st es stf flag,
    genLoop c fuel i st = ⟨es, stf, flag, none⟩ →
    (∀ e ∈ es, e.finished = false ∧ e.request_id = c.request_id) ∧
    (∃ tail, stf.output_token_ids = st.output_token_ids ++ tail ∧ tail.length = es.length) ∧
    (es = [] → stf = st) ∧
    (∀ e, es.getLast? = some e → ∃ ch, e.outputs = [ch] ∧
      ch.token_ids = stf.output_token_ids.drop c.inputLen ∧ stf.text = some ch.text) := by
  intro fuel
  induction fuel with
  | zero =>
    intro i st es stf flag h
    rw [genLoop_zero, LoopOut.mk.injEq] at h
    obtain ⟨h1, h2, -, -⟩ := h
    subst h1 h2
    exact ⟨by simp, ⟨[], by simp⟩, fun _ => rfl, by simp⟩
  | succ fuel ih =>
    intro i st es stf flag h
    rw [genLoop_succ] at h
    cases hd : decodeStep c i st with
    | error e =>
      rw [hd] at h
      dsimp only at h
      rw [LoopOut.mk.injEq] at h
      exact absurd h.2.2.2 (by simp)
    | ok ost =>
      rw [hd] at h
      dsimp only at h
      obtain ⟨hfin0, hreq0, -, ⟨ch, hch, -, hchtok, hchtext⟩, tk, htk⟩ :=
        decodeStep_ok_spec c i st ost.1 ost.2 hd
      by_cases hstop : ost.2.stopped = true
      · rw [if_pos hstop] at h
        rw [LoopOut.mk.injEq] at h
        obtain ⟨h1, h2, -, -⟩ := h
        subst h1 h2
        refine ⟨?_, ⟨[tk], by simp [htk]⟩, by simp, ?_⟩
        · intro e he
          rcases List.mem_singleton.mp he with rfl
          exact ⟨hfin0, hreq0⟩
        · intro e he
          rcases Option.some.inj he with rfl
          exact ⟨ch, hch, hchtok, hchtext⟩
      · rw [if_neg hstop] at h
        rw [LoopOut.mk.injEq] at h
        obtain ⟨h1, h2, -, h4⟩ := h
        have hr : genLoop c fuel (i + 1) ost.2 =
            ⟨(genLoop c fuel (i + 1) ost.2).emissions, (genLoop c fuel (i + 1) ost.2).state,
             (genLoop c fuel (i + 1) ost.2).ranAll, none⟩ := by
          rw [← h4]
        obtain ⟨ihfin, ⟨tail, htail, htlen⟩, ihnil, ihlast⟩ :=
          ih (i + 1) ost.2 _ _ _ hr
        subst h1 h2
        refine ⟨?_, ⟨tk :: tail, by simp [htail, htk], by simp [htlen]⟩, by simp, ?_⟩
        · intro e he
          rcases List.mem_cons.mp he with rfl | he2
          · exact ⟨hfin0, hreq0⟩
          · exact ihfin e he2
        · intro e he
          cases hemp : (genLoop c fuel (i + 1) ost.2).emissions with
          | nil =>
            rw [hemp] at he
            rcases Option.some.inj he with rfl
            have hsame := ihnil hemp
            rw [hsame]
            exact ⟨ch, hch, hchtok, hchtext⟩
          | cons e0 es0 =>
            rw [hemp] at he
            have hlast2 : ((genLoop c fuel (i + 1) ost.2).emissions).getLast? = some e := by
              rw [List.getLast?_cons_cons] at he
              rw [hemp]
              exact he
            exact ihlast e hlast2

/-- Claim C3 (confirmed): any run of `generateIterator` that completes
without raising ends in exactly one `finished = true` emission - it is the
last element of the stream, everything before it is `finished = false`, all
emissions carry the request id - and its single chunk carries the complete
history: its `token_ids` are the truncated prompt followed by exactly the
generated token ids of the last streamed chunk, and its `text` equals the
last streamed chunk's cumulative text (untruncated by streaming). -/
theorem claim3_terminal (c : Ctx) (es : List GenerationOutput) (b : Bool)
    (h : generateIterator c = ⟨es, none, b⟩) :
    es ≠ [] ∧
    (es.dropLast.all (fun e => !e.finished)) = true ∧
    (es.getLast?.map (fun e => e.finished)) = some true ∧
    (es.all (fun e => e.request_id == c.request_id)) = true ∧
    (es.getLast?.map (fun e => e.outputs.map (fun ch => ch.text))) =
      (es.dropLast.getLast?.map (fun e => e.outputs.map (fun ch => ch.text))) ∧
    (es.getLast?.map (fun e => e.outputs.map (fun ch => ch.token_ids))) =
      (es.dropLast.getLast?.map (fun e => e.outputs.map (fun ch => c.trunc ++ ch.token_ids))) := by
  unfold generateIterator at h
  by_cases hg : (c.M.is_encoder_decoder && c.cfg.logprobs) = true
  · rw [if_pos hg] at h
    rw [RunResult.mk.injEq] at h
    exact absurd h.2.1 (by simp)
  · rw [if_neg hg] at h
    rcases hgl : genLoop c c.cfg.max_new_tokens 0 (initState c) with ⟨em, stf, fl, er⟩
    rw [hgl] at h
    dsimp only at h
    cases er with
    | some e =>
      rw [RunResult.mk.injEq] at h
      exact absurd h.2.1 (by simp)
    | none =>
      cases htext : stf.text with
      | none =>
        rw [htext] at h
        rw [RunResult.mk.injEq] at h
        exact absurd h.2.1 (by simp)
      | some t =>
        rw [htext] at h
        rw [RunResult.mk.injEq] at h
        obtain ⟨hes, -, -⟩ := h
        obtain ⟨ifin, ⟨tail, htail, -⟩, inil, ilast⟩ :=
          genLoop_spec c c.cfg.max_new_tokens 0 (initState c) em stf fl hgl
        have hemne : em ≠ [] := by
          intro hemp
          have := inil hemp
          rw [this] at htext
          exact absurd htext (by simp [initState])
        subst hes
        rw [List.dropLast_concat, List.getLast?_concat]
        cases hlg : em.getLast? with
        | none => exact absurd (by simpa using hlg) hemne
        | some e =>
          obtain ⟨ch, hcho, hchtok, hchtext⟩ := ilast e hlg
          rw [htext] at hchtext
          have hct : ch.text = t := (Option.some.inj hchtext).symm
          have hstf : stf.output_token_ids = c.trunc ++ tail := by
            simpa [initState] using htail
          have hdrop : stf.output_token_ids.drop c.inputLen = tail := by
            rw [hstf]
            exact List.drop_left c.trunc tail
          refine ⟨by simp, ?_, by simp, ?_, ?_, ?_⟩
          · simp only [List.all_eq_true, Bool.not_eq_eq_eq_not, Bool.not_true]
            intro e2 he2
            simp [(ifin e2 he2).1]
          · simp only [List.all_append, Bool.and_eq_true, List.all_eq_true]
            constructor
            · intro e2 he2
              simp [(ifin e2 he2).2]
            · simp
          · simp [hcho, hct]
          · simp only [Option.map_some']
            rw [hcho]
            simp only [List.map_cons, List.map_nil]
            rw [hchtok, hdrop, ← hstf]

/-- Witness for claim C3: the concrete run `ctxC1w` completes without
raising, and the theorem applies to it. -/
theorem claim3_witness :
    (generateIterator ctxC1w).emissions ≠ [] ∧
    ((generateIterator ctxC1w).emissions.dropLast.all (fun e => !e.finished)) = true ∧
    ((generateIterator ctxC1w).emissions.getLast?.map (fun e => e.finished)) = some true ∧
    ((generateIterator ctxC1w).emissions.all
      (fun e => e.request_id == ctxC1w.request_id)) = true ∧
    ((generateIterator ctxC1w).emissions.getLast?.map
      (fun e => e.outputs.map (fun ch => ch.text))) =
      ((generateIterator ctxC1w).emissions.dropLast.getLast?.map
        (fun e => e.outputs.map (fun ch => ch.text))) ∧
    ((generateIterator ctxC1w).emissions.getLast?.map
      (fun e => e.outputs.map (fun ch => ch.token_ids))) =
      ((generateIterator ctxC1w).emissions.dropLast.getLast?.map
        (fun e => e.outputs.map (fun ch => ctxC1w.trunc ++ ch.token_ids))) :=
  claim3_terminal ctxC1w (generateIterator ctxC1w).emissions true (by decide)

/-! ## Greedy determinism (claim C7) -/

/-- Under the greedy condition of line 261, one decode step does not depend
on the sampler oracle: the drawn token is the first of the top-2 indices. -/
theorem decodeStep_sampler_irrel (c : Ctx) (s1 s2 : Nat → Nat) (i : Nat) (st : LoopState)
    (hg : c.cfg.temperature < mkRat 1 100000 ∨ c.cfg.top_p < mkRat 1 100000000) :
    decodeStep { c with sampler := s1 } i st = decodeStep { c with sampler := s2 } i st := by
  unfold decodeStep stepSuccess stepToken stepLpVar
  simp only [Ctx.trunc, Ctx.stopTids, Ctx.inputLen]
  dsimp only
  simp only [if_pos hg]

/-- The whole decode loop is sampler-independent under the greedy
condition. -/
theorem genLoop_sampler_irrel (c : Ctx) (s1 s2 : Nat → Nat)
    (hg : c.cfg.temperature < mkRat 1 100000 ∨ c.cfg.top_p < mkRat 1 100000000) :
    ∀ fuel i st, genLoop { c with sampler := s1 } fuel i st =
      genLoop { c with sampler := s2 } fuel i st := by
  intro fuel
  induction fuel with
  | zero => intro i st; rfl
  | succ fuel ih =>
    intro i st
    rw [genLoop_succ, genLoop_succ, decodeStep_sampler_irrel c s1 s2 i st hg]
    simp only [ih]

/-- Claim C7 (confirmed): with `temperature < 1e-5` (or `top_p < 1e-8`) the
whole stream is independent of the random sampler - two runs over identical
prompt, configuration and backend state (the same `Ctx` apart from the
sampler oracle) produce identical emissions, in particular identical output
token sequences; the greedy branch deterministically takes the first of the
top-2 candidates. -/
theorem claim7_greedy_deterministic (c : Ctx) (s1 s2 : Nat → Nat)
    (hg : c.cfg.temperature < mkRat 1 100000 ∨ c.cfg.top_p < mkRat 1 100000000) :
    generateIterator { c with sampler := s1 } = generateIterator { c with sampler := s2 } := by
  unfold generateIterator
  simp only [Ctx.trunc, Ctx.stopTids, Ctx.inputLen, initState]
  dsimp only
  simp only [genLoop_sampler_irrel c s1 s2 hg]

/-- Greedy base request for the determinism witness. -/
def ctxC7 : Ctx :=
  { M := modelConst [0, 1], tok := tokPlain, cfg := cfgGreedy 2
    sampler := fun _ => 0, stop := some ["q"], prompt_token_ids := [7]
    request_id := "r7" }

/-- Witness for claim C7: two runs of the greedy request `ctxC7` with
different sampler oracles coincide. -/
theorem claim7_witness :
    (ctxC7.cfg.temperature < mkRat 1 100000 ∨ ctxC7.cfg.top_p < mkRat 1 100000000) ∧
    generateIterator { ctxC7 with sampler := fun _ => 3 } =
      generateIterator { ctxC7 with sampler := fun _ => 4 } :=
  ⟨Or.inl (by decide),
   claim7_greedy_deterministic ctxC7 (fun _ => 3) (fun _ => 4) (Or.inl (by decide))⟩

/-! ## Stop token ids (claim C9) -/

/-- Python `==` between an `int` and a `list` is `False`. -/
theorem pyEq_int_list (n : Nat) (l : List Nat) : pyEq (.pyInt n) (.pyList l) = false := rfl

/-- Python `==` between two `int`s is numeric equality. -/
theorem pyEq_int_int (a b : Nat) : pyEq (.pyInt a) (.pyInt b) = (a == b) := rfl

/-- An `int` is never a member of a list of `list`s. -/
theorem pyMem_int_map_list (n : Nat) (f : String → List Nat) (ss : List String) :
    pyMem (.pyInt n) (ss.map (fun it => PyVal.pyList (f it))) = false := by
  induction ss with
  | nil => rfl
  | cons a l ih =>
    simp only [List.map_cons, pyMem, List.any_cons, pyEq_int_list, Bool.false_or]
    exact ih

/-- Claim C9 (confirmed): with a provided stop iterable, `stop_token_ids` is
the list of whole encodings of the stop strings plus the bare eos id (which
is always appended, an `int` never equalling a `list`), and the token-level
membership test `token in stop_token_ids` of line 283 succeeds exactly when
the drawn token is the eos token id - stop strings can never terminate
generation through the token-level check. -/
theorem claim9_stop_token_ids (tk : Tokenizer) (ss : List String) (token : Nat) :
    stopTokenIds tk (some ss) =
      ss.map (fun it => PyVal.pyList (tk.encode it)) ++ [PyVal.pyInt tk.eos_token_id] ∧
    pyMem (.pyInt token) (stopTokenIds tk (some ss)) = (token == tk.eos_token_id) := by
  have hbase := pyMem_int_map_list tk.eos_token_id tk.encode ss
  have h1 : stopTokenIds tk (some ss) =
      ss.map (fun it => PyVal.pyList (tk.encode it)) ++ [PyVal.pyInt tk.eos_token_id] := by
    unfold stopTokenIds
    dsimp only
    rw [hbase]
    simp
  refine ⟨h1, ?_⟩
  rw [h1]
  simp only [pyMem, List.any_append, List.any_cons, List.any_nil, Bool.or_false]
  rw [show (ss.map (fun it => PyVal.pyList (tk.encode it))).any (pyEq (.pyInt token)) = false from
    pyMem_int_map_list token tk.encode ss]
  simp [pyEq_int_int]

/-! ## `prompt_logprobs` without `logprobs` (claim C10) -/

/-- Claim C10 (confirmed): when `prompt_logprobs` is requested but
`logprobs` is not, and the (truncated) prompt is non-empty, the very first
decode step reads the never-assigned `logprobs` local at line 281 and the
call raises an unbound-local `NameError` without producing a single
emission (the forward pass itself succeeding, and at least one step being
scheduled). -/
theorem claim10_prompt_logprobs_name_error (c : Ctx)
    (hpl : c.cfg.prompt_logprobs = true) (hlp : c.cfg.logprobs = false)
    (hne : c.trunc ≠ []) (hmn : 1 ≤ c.cfg.max_new_tokens)
    (hfw : (c.M.forward c.trunc).toOption.isSome = true) :
    generateIterator c = ⟨[], some RunError.nameError, false⟩ := by
  have hstep : decodeStep c 0 (initState c) = .error .nameError := by
    unfold decodeStep
    cases hf : c.M.forward (initState c).output_token_ids with
    | error e =>
      have hf' : c.M.forward c.trunc = .error e := hf
      rw [hf'] at hfw
      simp [Except.toOption] at hfw
    | ok sl =>
      dsimp only
      have hlv : stepLpVar c (initState c) sl = none := by
        simp [stepLpVar, hlp, initState]
      rw [if_pos hpl, hlv]
      cases htr : c.trunc with
      | nil => exact absurd htr hne
      | cons t ts =>
        have : promptLoop none (t :: ts) (initState c).prompt_token_indices
            (initState c).prompt_logprobs = .error .nameError := rfl
        rw [this]
  unfold generateIterator
  have hgua : (c.M.is_encoder_decoder && c.cfg.logprobs) = false := by rw [hlp]; simp
  rw [if_neg (by simp [hgua])]
  cases hm : c.cfg.max_new_tokens with
  | zero => omega
  | succ m =>
    rw [genLoop_succ, hstep]

/-- Witness for claim C10: the concrete request `ctxC10` (prompt `[7]`,
`prompt_logprobs` on, `logprobs` off) raises `NameError` with no
emissions. -/
theorem claim10_witness :
    (ctxC10.cfg.prompt_logprobs = true ∧ ctxC10.cfg.logprobs = false ∧
      ctxC10.trunc ≠ [] ∧ 1 ≤ ctxC10.cfg.max_new_tokens ∧
      (ctxC10.M.forward ctxC10.trunc).toOption.isSome = true) ∧
    generateIterator ctxC10 = ⟨[], some RunError.nameError, false⟩ :=
  ⟨⟨rfl, rfl, by decide, by decide, rfl⟩,
   claim10_prompt_logprobs_name_error ctxC10 rfl rfl (by decide) (by decide) rfl⟩

/-! ## String-level stop truncation (claim C2) -/

/-- If no stop condition fires during the first `K` straight-line steps and
step `K` fires one, the decode loop emits the `K` clean steps' emissions
followed by step `K`'s emission and breaks there with the stopped state. -/
theorem genLoop_stops (c : Ctx) (K : Nat)
    (H : ∀ k, k < K → stoppedAfter c (k + 1) = some false)
    (st : LoopState) (o : GenerationOutput) (st' : LoopState)
    (hK : iterSteps c K = .ok st) (ho : decodeStep c K st = .ok (o, st'))
    (hs : st'.stopped = true) :
    ∀ fuel i st0, iterSteps c i = .ok st0 → K + 1 ≤ i + fuel → i ≤ K →
    ∃ es, genLoop c fuel i st0 = ⟨es ++ [o], st', false, none⟩ ∧ es.length = K - i ∧
      (∀ e ∈ es, e.finished = false) := by
  intro fuel
  induction fuel with
  | zero => intro i st0 _ h1 h2; exact absurd h2 (by omega)
  | succ fuel ih =>
    intro i st0 hit0 h1 h2
    by_cases hiK : i = K
    · subst hiK
      rw [hK] at hit0
      cases Except.ok.inj hit0
      refine ⟨[], ?_, by simp, by simp⟩
      rw [genLoop_succ, ho]
      dsimp only
      rw [if_pos hs]
      simp
    · have hilt : i < K := by omega
      obtain ⟨st1, hit1, hstop1⟩ := stoppedAfter_eq_some c (i + 1) false (H i hilt)
      obtain ⟨st0', o1, hit0', ho1⟩ := iterSteps_succ_ok c i st1 hit1
      rw [hit0] at hit0'
      cases Except.ok.inj hit0'
      obtain ⟨es, hge, hlen, hfin⟩ := ih (i + 1) st1 hit1 (by omega) (by omega)
      refine ⟨o1 :: es, ?_, by simp only [List.length_cons, hlen]; omega, ?_⟩
      · rw [genLoop_succ, ho1]
        dsimp only
        rw [if_neg (by simp [hstop1])]
        rw [hge]
        simp
      · intro e he
        rcases List.mem_cons.mp he with rfl | h2e
        · exact (decodeStep_ok_spec c i st0 e st1 ho1).1
        · exact hfin e h2e

/-- Claim C2 (amended): the string-level stop check truncates at the
position `text.rfind(it)` - the rightmost occurrence of the first (in
iteration order) configured stop string that occurs at all - not at the
earliest match position of any stop string; generation then stops with
`finish_reason = "stop"` and the terminal emission repeats the truncated
text. Consequently the terminal text ends before that rightmost match but
may still contain earlier occurrences of stop strings (see the
counterexample). First conjunct: the scan of lines 290-294; second
conjunct: the run-level behaviour when the stop fires at step `K`. -/
theorem claim2_amended :
    (∀ (pre : List String) (it : String) (post : List String) (t : String) (flag : Bool) (p : Nat),
      (∀ j ∈ pre, pyRfind t j = -1) → pyRfind t it = (p : Int) →
      stringScan (pre ++ it :: post) t flag = (pyTake t p, true)) ∧
    (∀ (c : Ctx) (K : Nat) (st : LoopState) (o : GenerationOutput) (st' : LoopState),
      (c.M.is_encoder_decoder && c.cfg.logprobs) = false →
      K < c.cfg.max_new_tokens →
      (∀ k, k < K → stoppedAfter c (k + 1) = some false) →
      iterSteps c K = .ok st → decodeStep c K st = .ok (o, st') → st'.stopped = true →
      (generateIterator c).error = none ∧
      (generateIterator c).emissions.dropLast.getLast? = some o ∧
      ((generateIterator c).emissions.getLast?.map
        (fun e => e.outputs.map (fun ch => (ch.finish_reason, ch.text)))) =
        some (o.outputs.map (fun ch => ((some "stop" : Option String), ch.text)))) := by
  constructor
  · intro pre
    induction pre with
    | nil =>
      intro it post t flag p _ hit
      simp only [List.nil_append, stringScan]
      rw [hit]
      rw [if_pos (by omega)]
      simp
    | cons j pre ih =>
      intro it post t flag p hpre hit
      simp only [List.cons_append, stringScan]
      rw [hpre j (by simp)]
      rw [if_neg (by omega)]
      exact ih it post t flag p (fun j2 hj2 => hpre j2 (by simp [hj2])) hit
  · intro c K st o st' hg hK H hit ho hs
    obtain ⟨es, hge, hlen, hfin⟩ :=
      genLoop_stops c K H st o st' hit ho hs c.cfg.max_new_tokens 0 (initState c) rfl
        (by omega) (by omega)
    obtain ⟨-, -, -, ⟨ch, hcho, -, -, hchtext⟩, -⟩ := decodeStep_ok_spec c K st o st' ho
    have hrun : generateIterator c =
        ⟨(es ++ [o]) ++ [{ prompt := ""
                           finished := true
                           outputs := [{ index := 0
                                         text := ch.text
                                         token_ids := st'.output_token_ids
                                         cumulative_logprob := st'.cumulative_logprob
                                         logprobs := if c.cfg.logprobs then some st'.sample_logprobs else none
                                         finish_reason := some "stop" }]
                           prompt_token_ids := c.trunc
                           prompt_logprobs := if c.cfg.prompt_logprobs then some st'.prompt_logprobs else none
                           request_id := c.request_id }], none, true⟩ := by
      unfold generateIterator
      rw [hg, hge]
      simp [hs, hchtext]
    rw [hrun]
    refine ⟨rfl, ?_, ?_⟩
    · rw [List.dropLast_concat, List.getLast?_concat]
    · rw [List.getLast?_concat]
      simp [hcho]

/-- The first decode step of `ctxC2` (used to instantiate the run-level
part of the claim C2 theorem with concrete values). -/
def stepPairC2 : GenerationOutput × LoopState :=
  match decodeStep ctxC2 0 (initState ctxC2) with
  | .ok p => p
  | .error _ => (⟨"", false, [], [], none, ""⟩, initState ctxC2)

/-- Witness for claim C2: the scan conjunct at stop string `"ab"` over text
`"abab"` (rightmost match, position 2), and the run-level conjunct at the
concrete request `ctxC2` whose step 0 fires the string-level stop. -/
theorem claim2_witness :
    (stringScan ([] ++ "ab" :: []) "abab" false = (pyTake "abab" 2, true) ∧
      pyRfind "abab" "ab" = (2 : Int)) ∧
    (decodeStep ctxC2 0 (initState ctxC2) = .ok (stepPairC2.1, stepPairC2.2) ∧
      stepPairC2.2.stopped = true ∧
      ((generateIterator ctxC2).error = none ∧
        (generateIterator ctxC2).emissions.dropLast.getLast? = some stepPairC2.1 ∧
        ((generateIterator ctxC2).emissions.getLast?.map
          (fun e => e.outputs.map (fun ch => (ch.finish_reason, ch.text)))) =
          some (stepPairC2.1.outputs.map (fun ch => ((some "stop" : Option String), ch.text))))) :=
  ⟨⟨claim2_amended.1 [] "ab" [] "abab" false 2 (by simp) (by decide), by decide⟩,
   ⟨rfl, by decide,
    claim2_amended.2 ctxC2 0 (initState ctxC2) stepPairC2.1 stepPairC2.2 rfl (by decide)
      (fun k hk => absurd hk (by omega)) rfl rfl (by decide)⟩⟩

/-- Counterexample to claim C2 as frozen: in the run `ctxC2` (stop string
`"ab"`, step 0 decodes to `"abab"`), the code truncates at `rfind`'s
rightmost match (position 2), emitting terminal text `"ab"` - which still
contains the stop string (it occurs at position 0) - whereas truncation at
the earliest match position of the stop string would have emitted `""`. -/
theorem claim2_counterexample :
    (generateIterator ctxC2).error = none ∧
    ((generateIterator ctxC2).emissions.getLast?.map
      (fun e => e.outputs.map (fun ch => (ch.text, ch.finish_reason)))) =
      some [("ab", some "stop")] ∧
    pyRfind "ab" "ab" = (0 : Int) ∧
    pyTake "abab" 0 = "" ∧
    ("ab" : String) ≠ "" := by
  refine ⟨by decide, by decide, by decide, by decide, by decide⟩

/-! ## Prompt truncation (claim C8) -/

/-- Stated from the spec's words, for comparison with the source-derived
`truncPrompt`: the suffix of length `L` of a token list (all of it when the
list is shorter). -/
def specSuffixTrunc (L : Int) (l : List Nat) : List Nat := l.drop (l.length - L.toNat)

/-- Claim C8 (amended): before decoding, the prompt is truncated to its last
`min(len, context_length - max_new_tokens - 1)` tokens for causal models
and its last `min(len, context_length)` tokens for encoder-decoder models -
PROVIDED the bound is at least 1. (At bound 0 Python's `prompt[-0:]` keeps
the whole prompt, and at a negative bound it drops leading tokens instead;
see the counterexample.) -/
theorem claim8_amended :
    (∀ (cl mnt : Nat) (prompt : List Nat), 1 ≤ (cl : Int) - mnt - 1 →
      truncPrompt false cl mnt prompt =
        prompt.drop (prompt.length - ((cl : Int) - mnt - 1).toNat)) ∧
    (∀ (cl mnt : Nat) (prompt : List Nat), 1 ≤ cl →
      truncPrompt true cl mnt prompt = prompt.drop (prompt.length - cl)) := by
  constructor
  · intro cl mnt prompt hL
    have h0 : truncPrompt false cl mnt prompt =
        pySliceFrom prompt (-((cl : Int) - mnt - 1)) := rfl
    rw [h0]
    unfold pySliceFrom
    rw [if_neg (by omega), Int.neg_neg]
  · intro cl mnt prompt hcl
    have h0 : truncPrompt true cl mnt prompt = pySliceFrom prompt (-(cl : Int)) := rfl
    rw [h0]
    unfold pySliceFrom
    rw [if_neg (by omega), Int.neg_neg]
    simp

/-- Witness for claim C8: concrete truncations in the causal case
(`context_length = 10`, `max_new_tokens = 3`, keep the last 6 tokens) and
the encoder-decoder case (`context_length = 2`, keep the last 2 tokens). -/
theorem claim8_witness :
    (1 ≤ (10 : Int) - 3 - 1 ∧
      truncPrompt false 10 3 [1, 2, 3, 4, 5, 6, 7, 8] = [3, 4, 5, 6, 7, 8]) ∧
    ((1 : Nat) ≤ 2 ∧ truncPrompt true 2 5 [1, 2, 3, 4] = [3, 4]) :=
  ⟨⟨by norm_num,
    (claim8_amended.1 10 3 [1, 2, 3, 4, 5, 6, 7, 8] (by norm_num)).trans (by decide)⟩,
   ⟨by norm_num, (claim8_amended.2 2 5 [1, 2, 3, 4] (by norm_num)).trans (by decide)⟩⟩

/-- Counterexample to claim C8 as frozen: with `context_length = 5` and
`max_new_tokens = 4` the claimed suffix length is `5 - 4 - 1 = 0`, so the
claim demands the empty suffix; but `prompt[-0:]` is the whole prompt in
Python, and the code keeps `[1, 2, 3]` intact. -/
theorem claim8_counterexample :
    truncPrompt false 5 4 [1, 2, 3] = [1, 2, 3] ∧
    specSuffixTrunc ((5 : Int) - 4 - 1) [1, 2, 3] = [] ∧
    truncPrompt false 5 4 [1, 2, 3] ≠ specSuffixTrunc ((5 : Int) - 4 - 1) [1, 2, 3] := by
  refine ⟨by decide, by decide, by decide⟩

/-! ## Cleanup on exceptional exit (claim C6) -/

/-- Claim C6 is a code bug: the cleanup statements of lines 341-343
(`del past_key_values, out; gc.collect(); torch.cuda.empty_cache()`) are
not inside any `try`/`finally`, so an exception raised inside the decode
loop propagates without executing them. This theorem evaluates the embedded
code at the failing input `ctxC6` (whose model forward pass raises
`executionError` at the second step, as a CUDA OOM would): one emission is
produced, the error propagates, and the cleanup is never reached
(`cleanupRan = false`), contrary to the claim that the cleanup runs on
every exit path. -/
theorem claim6_no_cleanup_on_error :
    (generateIterator ctxC6).emissions.length = 1 ∧
    (generateIterator ctxC6).error = some RunError.executionError ∧
    (generateIterator ctxC6).cleanupRan = false := by
  refine ⟨by decide, by decide, by decide⟩

/-! ## Backend registry (claim C5) -/

/-- Python `str.lower`. -/
def strToLower (s : String) : String := ⟨s.data.map Char.toLower⟩

/-- Python `s[:-n]` for positive `n` not exceeding the length. -/
def strDropRight (s : String) (n : Nat) : String := ⟨s.data.take (s.data.length - n)⟩

/-- A Runnable class as the registry machinery sees it: its name, its
`__openllm_can_init__` attribute if any, and whether its `__new__` is the
registry's `_gated_new`. -/
structure RunnableCls where
  clsName : String
  can_init : Option Bool
  gatedNew : Bool
deriving DecidableEq, Repr

/-- A constructed instance (only its class identity matters here). -/
structure RunnableInst where
  ofCls : String
deriving DecidableEq, Repr

/-- Instantiation (`cls(...)`): `_gated_new` of lines 27-29 raises
`TypeError` unless `__openllm_can_init__` is truthy (reading a missing
attribute would be an `AttributeError`; decorator-built classes always
carry the attribute). A class with the plain `object.__new__` constructs
unconditionally. -/
def instantiateCls (cls : RunnableCls) : Except RunError RunnableInst :=
  if cls.gatedNew then
    match cls.can_init with
    | some true => .ok ⟨cls.clsName⟩
    | some false => .error .typeError
    | none => .error .attributeError
  else .ok ⟨cls.clsName⟩

/-- The `registry` decorator (lines 26-35) applied to a class that defines
neither `__new__` nor `__openllm_can_init__` of its own (true of all three
Runnables of the module): it stores the ORIGINAL class in `_registry` under
`cls.__name__[:-8].lower()` (or the explicit alias) - line 31 - and returns
a rebuilt class whose dict carries `__openllm_can_init__ = False` and the
gated `__new__` - lines 32-34. -/
def registryDecorate (reg : List (String × RunnableCls)) (aliasName : Option String)
    (orig : RunnableCls) : List (String × RunnableCls) × RunnableCls :=
  let key := match aliasName with
    | some a => a
    | none => strToLower (strDropRight orig.clsName 8)
  (reg ++ [(key, orig)],
   { clsName := orig.clsName, can_init := some false, gatedNew := true })

/-- Python dict lookup `_registry[name]` (line 44): the latest registration
for a key wins; an unregistered name raises `KeyError` - there is no
conversion to openllm's `NotFoundError` and no fallback. -/
def registryGet (reg : List (String × RunnableCls)) (key : String) : Except RunError RunnableCls :=
  match reg.reverse.find? (fun kv => kv.1 == key) with
  | some kv => .ok kv.2
  | none => .error .keyError

/-- The three Runnable classes of _runners.py as written (before
decoration). -/
def ctranslateOrig : RunnableCls := ⟨"CTranslateRunnable", none, false⟩

/-- The class `vLLMRunnable` before decoration. -/
def vllmOrig : RunnableCls := ⟨"vLLMRunnable", none, false⟩

/-- The class `PyTorchRunnable` before decoration. -/
def pytorchOrig : RunnableCls := ⟨"PyTorchRunnable", none, false⟩

/-- Module elaboration step 1: `@registry` on `CTranslateRunnable`. -/
def regStep1 : List (String × RunnableCls) × RunnableCls :=
  registryDecorate [] none ctranslateOrig

/-- The gated class the module exports as `CTranslateRunnable`. -/
def CTranslateRunnableCls : RunnableCls := regStep1.2

/-- Module elaboration step 2: `@registry` on `vLLMRunnable`. -/
def regStep2 : List (String × RunnableCls) × RunnableCls :=
  registryDecorate regStep1.1 none vllmOrig

/-- The gated class the module exports as `vLLMRunnable`. -/
def vLLMRunnableCls : RunnableCls := regStep2.2

/-- Module elaboration step 3: `@registry(alias='pt')` on
`PyTorchRunnable`. -/
def regStep3 : List (String × RunnableCls) × RunnableCls :=
  registryDecorate regStep2.1 (some "pt") pytorchOrig

/-- The gated class the module exports as `PyTorchRunnable`. -/
def PyTorchRunnableCls : RunnableCls := regStep3.2

/-- The `_registry` dict after the module is loaded. -/
def moduleRegistry : List (String × RunnableCls) := regStep3.1

/-- Claim C5 (amended): looking up an unregistered backend name in the
runner registry raises `KeyError` (a plain dict lookup - NOT openllm's
`NotFoundError`, see the counterexample) and never silently falls back: a
successful lookup returns exactly a class registered under that very key.
Direct instantiation of a gated class (one whose `__openllm_can_init__` is
`False`, as all module-exported Runnable classes are) raises `TypeError`. -/
theorem claim5_amended :
    (∀ key : String, key ∉ moduleRegistry.map Prod.fst →
      registryGet moduleRegistry key = .error .keyError) ∧
    (∀ key : String, ∀ cls : RunnableCls,
      registryGet moduleRegistry key = .ok cls → (key, cls) ∈ moduleRegistry) ∧
    (∀ cls : RunnableCls, cls.gatedNew = true → cls.can_init = some false →
      instantiateCls cls = .error .typeError) := by
  refine ⟨?_, ?_, ?_⟩
  · intro key h
    unfold registryGet
    cases hf : moduleRegistry.reverse.find? (fun kv => kv.1 == key) with
    | none => rfl
    | some kv =>
      exfalso
      have hp := List.find?_some hf
      have hm : kv ∈ moduleRegistry := List.mem_reverse.mp (List.mem_of_find?_eq_some hf)
      exact h (List.mem_map.mpr ⟨kv, hm, beq_iff_eq.mp hp⟩)
  · intro key cls h
    unfold registryGet at h
    cases hf : moduleRegistry.reverse.find? (fun kv => kv.1 == key) with
    | none => rw [hf] at h; exact absurd h (by simp)
    | some kv =>
      rw [hf] at h
      have hp := List.find?_some hf
      have hm : kv ∈ moduleRegistry := List.mem_reverse.mp (List.mem_of_find?_eq_some hf)
      have hcls : kv.2 = cls := Except.ok.inj h
      have hkey : kv.1 = key := beq_iff_eq.mp hp
      rw [← hkey, ← hcls]
      exact hm
  · intro cls h1 h2
    unfold instantiateCls
    rw [if_pos h1, h2]

/-- Witness for claim C5: `"tf"` is not a registered backend and its lookup
raises `KeyError`; the module-exported `PyTorchRunnable` class is gated
with `__openllm_can_init__ = False` and direct instantiation raises
`TypeError`. -/
theorem claim5_witness :
    ("tf" ∉ moduleRegistry.map Prod.fst ∧
      registryGet moduleRegistry "tf" = .error RunError.keyError) ∧
    (PyTorchRunnableCls.gatedNew = true ∧ PyTorchRunnableCls.can_init = some false ∧
      instantiateCls PyTorchRunnableCls = .error RunError.typeError) :=
  ⟨⟨by decide, claim5_amended.1 "tf" (by decide)⟩,
   ⟨rfl, rfl, claim5_amended.2.2 PyTorchRunnableCls rfl rfl⟩⟩

/-- Counterexample to claim C5 as frozen: the unregistered backend name
`"tf"` fails with `KeyError`, which is not openllm's `NotFoundError` - the
line `_registry[llm.__llm_backend__]` is a plain dict access with no
exception translation. -/
theorem claim5_counterexample :
    registryGet moduleRegistry "tf" = .error RunError.keyError ∧
    ¬ registryGet moduleRegistry "tf" = .error RunError.notFoundError := by
  refine ⟨rfl, ?_⟩
  intro h
  rw [show registryGet moduleRegistry "tf" = Except.error RunError.keyError from rfl] at h
  exact absurd (Except.error.inj h) (by decide)

/-! ## Delta reconciler of `LLM.generate_iterator` (claim C4) -/

/-- The inner loop over `generated.outputs` (_llm.py lines 368-379): for
each chunk, reduce it to `text[len(previous_texts[i]):]` and
`token_ids[previous_num_tokens[i]:]` where `i = output.index`, update the
per-alternative retained state at index `i`, and `break` out of the inner
loop once a chunk carries a finish reason. Each yielded delta is tagged
with its alternative index `i` (in `'token'` mode the yielded
`delta_outputs[i]` carries exactly this index). Reading
`previous_texts[i]` out of range is an `IndexError`. -/
def chunkLoop (prevT : List String) (prevN : List Nat) :
    List CompletionChunk → Except RunError (List (Nat × String × List Nat) × List String × List Nat)
  | [] => .ok ([], prevT, prevN)
  | ch :: rest =>
    if ch.index < prevT.length ∧ ch.index < prevN.length then
      let dText := pyStrDrop ch.text (pyLen (prevT.getD ch.index ""))
      let dTok := ch.token_ids.drop (prevN.getD ch.index 0)
      let prevT' := prevT.set ch.index ch.text
      let prevN' := prevN.set ch.index ch.token_ids.length
      if ch.finish_reason ≠ none then .ok ([(ch.index, dText, dTok)], prevT', prevN')
      else
        match chunkLoop prevT' prevN' rest with
        | .ok dspp => .ok ((ch.index, dText, dTok) :: dspp.1, dspp.2.1, dspp.2.2)
        | .error e => .error e
    else .error .indexError

/-- Definitional unfolding of `chunkLoop` on a cons. -/
theorem chunkLoop_cons (prevT : List String) (prevN : List Nat) (ch : CompletionChunk)
    (rest : List CompletionChunk) :
    chunkLoop prevT prevN (ch :: rest) =
      if ch.index < prevT.length ∧ ch.index < prevN.length then
        if ch.finish_reason ≠ none then
          .ok ([(ch.index, pyStrDrop ch.text (pyLen (prevT.getD ch.index "")),
                ch.token_ids.drop (prevN.getD ch.index 0))],
               prevT.set ch.index ch.text, prevN.set ch.index ch.token_ids.length)
        else
          match chunkLoop (prevT.set ch.index ch.text) (prevN.set ch.index ch.token_ids.length) rest with
          | .ok dspp => .ok ((ch.index, pyStrDrop ch.text (pyLen (prevT.getD ch.index "")),
                             ch.token_ids.drop (prevN.getD ch.index 0)) :: dspp.1, dspp.2.1, dspp.2.2)
          | .error e => .error e
      else .error .indexError := rfl

/-- The outer loop of `LLM.generate_iterator` in delta mode (_llm.py lines
361-379): parse each emission, `break` the whole stream at the first
`finished = true` one (the terminal emission is never diffed), otherwise
diff its chunks against the retained per-alternative state. -/
def reconcileText (prevT : List String) (prevN : List Nat) :
    List GenerationOutput → Except RunError (List (Nat × String × List Nat))
  | [] => .ok []
  | g :: rest =>
    if g.finished then .ok []
    else
      match chunkLoop prevT prevN g.outputs with
      | .error e => .error e
      | .ok dspp =>
        match reconcileText dspp.2.1 dspp.2.2 rest with
        | .error e => .error e
        | .ok more => .ok (dspp.1 ++ more)

/-- Definitional unfolding of `reconcileText` on a cons. -/
theorem reconcileText_cons (prevT : List String) (prevN : List Nat) (g : GenerationOutput)
    (rest : List GenerationOutput) :
    reconcileText prevT prevN (g :: rest) =
      if g.finished then .ok []
      else
        match chunkLoop prevT prevN g.outputs with
        | .error e => .error e
        | .ok dspp =>
          match reconcileText dspp.2.1 dspp.2.2 rest with
          | .error e => .error e
          | .ok more => .ok (dspp.1 ++ more) := rfl

/-- The body of `LLM.generate_iterator` with `return_type` one of 'token'
or 'text': the retained state is freshly initialised per request to
`[''] * n` and `[0] * n` (_llm.py line 360, `n = config['n']`) and the
stream is reduced to index-tagged deltas. -/
def llmGenerateIteratorDeltas (n : Nat) (stream : List GenerationOutput) :
    Except RunError (List (Nat × String × List Nat)) :=
  reconcileText (List.replicate n "") (List.replicate n 0) stream

/-- The cumulative texts belonging to alternative `i`, in stream order. -/
def altTexts (i : Nat) (cs : List CompletionChunk) : List String :=
  (cs.filter (fun ch => ch.index == i)).map (fun ch => ch.text)

/-- The text deltas the reconciler yielded for alternative `i`, in stream
order. -/
def deltaTextsFor (i : Nat) (ds : List (Nat × String × List Nat)) : List String :=
  (ds.filter (fun d => d.1 == i)).map (fun d => d.2.1)

/-- A successful Boolean prefix test yields the list-level decomposition. -/
theorem isPrefixOfData (a : List Char) : ∀ b : List Char, a.isPrefixOf b = true → ∃ t, a ++ t = b := by
  induction a with
  | nil => exact fun b _ => ⟨b, rfl⟩
  | cons x xs ih =>
    intro b h
    cases b with
    | nil => simp [List.isPrefixOf] at h
    | cons y ys =>
      simp only [List.isPrefixOf, Bool.and_eq_true, beq_iff_eq] at h
      obtain ⟨hxy, hrest⟩ := h
      obtain ⟨t, ht⟩ := ih ys hrest
      exact ⟨t, by rw [hxy, List.cons_append, ht]⟩

/-- Concatenation distributes over cons (character-data view). -/
theorem concatTexts_cons (s : String) (l : List String) :
    (concatTexts (s :: l)).data = s.data ++ (concatTexts l).data := rfl

/-- Concatenation distributes over append (character-data view). -/
theorem concatTexts_append (A B : List String) :
    (concatTexts (A ++ B)).data = (concatTexts A).data ++ (concatTexts B).data := by
  simp [concatTexts]

/-- Two strings with the same character data are equal. -/
theorem strDataInj (s t : String) (h : s.data = t.data) : s = t := by
  cases s
  cases t
  cases h
  rfl

/-- Writing a cell and reading it back. -/
theorem getD_set_self {α : Type} (d : α) :
    ∀ (l : List α) (i : Nat) (a : α), i < l.length → (l.set i a).getD i d = a := by
  intro l
  induction l with
  | nil => intro i a h; simp at h
  | cons x xs ih =>
    intro i a h
    cases i with
    | zero => rfl
    | succ i =>
      show (xs.set i a).getD i d = a
      exact ih i a (Nat.lt_of_succ_lt_succ h)

/-- Writing one cell leaves the others unchanged. -/
theorem getD_set_ne {α : Type} (d : α) :
    ∀ (l : List α) (i j : Nat) (a : α), j ≠ i → (l.set i a).getD j d = l.getD j d := by
  intro l
  induction l with
  | nil => intro i j a _; rfl
  | cons x xs ih =>
    intro i j a h
    cases i with
    | zero =>
      cases j with
      | zero => exact absurd rfl h
      | succ j => rfl
    | succ i =>
      cases j with
      | zero => rfl
      | succ j => exact ih i j a (fun hh => h (by rw [hh]))

/-- Every cell of a replicated list holds the replicated value. -/
theorem getD_replicate_self {α : Type} (d : α) :
    ∀ (n i : Nat), (List.replicate n d).getD i d = d := by
  intro n
  induction n with
  | zero => intro i; rfl
  | succ n ih =>
    intro i
    cases i with
    | zero => rfl
    | succ i => exact ih i

/-- A chunk of the selected alternative contributes its text. -/
theorem altTexts_cons_eq (i : Nat) (ch : CompletionChunk) (cs : List CompletionChunk)
    (h : (ch.index == i) = true) : altTexts i (ch :: cs) = ch.text :: altTexts i cs := by
  simp [altTexts, List.filter_cons, h]

/-- A chunk of another alternative contributes nothing. -/
theorem altTexts_cons_ne (i : Nat) (ch : CompletionChunk) (cs : List CompletionChunk)
    (h : (ch.index == i) = false) : altTexts i (ch :: cs) = altTexts i cs := by
  simp [altTexts, List.filter_cons, h]

/-- Alternative selection distributes over append. -/
theorem altTexts_append (i : Nat) (cs1 cs2 : List CompletionChunk) :
    altTexts i (cs1 ++ cs2) = altTexts i cs1 ++ altTexts i cs2 := by
  simp [altTexts]

/-- A delta of the selected alternative contributes its text. -/
theorem deltaTextsFor_cons_eq (i : Nat) (p : Nat × String × List Nat)
    (ds : List (Nat × String × List Nat)) (h : (p.1 == i) = true) :
    deltaTextsFor i (p :: ds) = p.2.1 :: deltaTextsFor i ds := by
  simp [deltaTextsFor, List.filter_cons, h]

/-- A delta of another alternative contributes nothing. -/
theorem deltaTextsFor_cons_ne (i : Nat) (p : Nat × String × List Nat)
    (ds : List (Nat × String × List Nat)) (h : (p.1 == i) = false) :
    deltaTextsFor i (p :: ds) = deltaTextsFor i ds := by
  simp [deltaTextsFor, List.filter_cons, h]

/-- Delta selection distributes over append. -/
theorem deltaTextsFor_append (i : Nat) (ds1 ds2 : List (Nat × String × List Nat)) :
    deltaTextsFor i (ds1 ++ ds2) = deltaTextsFor i ds1 ++ deltaTextsFor i ds2 := by
  simp [deltaTextsFor]

/-- Defaulted last element of an appended list. -/
theorem getLastD_append_right {α : Type} :
    ∀ (A B : List α) (d : α), (A ++ B).getLastD d = B.getLastD (A.getLastD d) := by
  intro A
  induction A with
  | nil => intro B d; rfl
  | cons a A ih =>
    intro B d
    simp only [List.cons_append, List.getLastD_cons]
    exact ih B a

/-- Splitting a chain along an append: the tail chain restarts at the
defaulted last element of the first segment. -/
theorem chain_cons_append_split {α : Type} (R : α → α → Prop) :
    ∀ (A : List α) (x : α) (B : List α), List.Chain' R (x :: (A ++ B)) →
      List.Chain' R (x :: A) ∧ List.Chain' R ((A.getLastD x) :: B) := by
  intro A
  induction A with
  | nil =>
    intro x B h
    exact ⟨List.chain'_singleton x, h⟩
  | cons a A ih =>
    intro x B h
    simp only [List.cons_append] at h
    rw [List.chain'_cons] at h
    obtain ⟨hxa, h2⟩ := h
    obtain ⟨hA, hB⟩ := ih a B h2
    constructor
    · exact List.chain'_cons.mpr ⟨hxa, hA⟩
    · simpa only [List.getLastD_cons] using hB

/-- Per-alternative invariant of the inner chunk loop: on well-formed chunk
lists (in-range indices, no finish reason) it succeeds, preserves the state
lengths, leaves each alternative's retained text equal to that
alternative's last streamed text, and - whenever that alternative's texts
extend the retained text as a chain of prefixes - its retained text
followed by its deltas spells out its last streamed text. -/
theorem chunkLoop_spec (n : Nat) :
    ∀ (cs : List CompletionChunk) (prevT : List String) (prevN : List Nat),
    prevT.length = n → prevN.length = n →
    (∀ ch ∈ cs, ch.index < n ∧ ch.finish_reason = none) →
    ∃ ds pT pN, chunkLoop prevT prevN cs = .ok (ds, pT, pN) ∧
      pT.length = n ∧ pN.length = n ∧
      ∀ i, i < n →
        pT.getD i "" = (altTexts i cs).getLastD (prevT.getD i "") ∧
        (List.Chain' (fun a b => a.data.isPrefixOf b.data = true)
            ((prevT.getD i "") :: altTexts i cs) →
          (prevT.getD i "").data ++ (concatTexts (deltaTextsFor i ds)).data =
            ((altTexts i cs).getLastD (prevT.getD i "")).data) := by
  intro cs
  induction cs with
  | nil =>
    intro prevT prevN hTn hNn _
    refine ⟨[], prevT, prevN, rfl, hTn, hNn, ?_⟩
    intro i _
    refine ⟨rfl, fun _ => ?_⟩
    simp [deltaTextsFor, altTexts, concatTexts]
  | cons ch cs ih =>
    intro prevT prevN hTn hNn hwf
    obtain ⟨hidx, hfr⟩ := hwf ch (by simp)
    obtain ⟨ds', pT, pN, hrec, hpTn, hpNn, hfacts⟩ :=
      ih (prevT.set ch.index ch.text) (prevN.set ch.index ch.token_ids.length)
        (by rw [List.length_set, hTn]) (by rw [List.length_set, hNn])
        (fun c hc => hwf c (by simp [hc]))
    have hguard : ch.index < prevT.length ∧ ch.index < prevN.length :=
      ⟨by rw [hTn]; exact hidx, by rw [hNn]; exact hidx⟩
    refine ⟨(ch.index, pyStrDrop ch.text (pyLen (prevT.getD ch.index "")),
             ch.token_ids.drop (prevN.getD ch.index 0)) :: ds', pT, pN, ?_, hpTn, hpNn, ?_⟩
    · rw [chunkLoop_cons, if_pos hguard, if_neg (by simp [hfr]), hrec]
    · intro i hi
      by_cases hb : ch.index = i
      · subst hb
        have hset : (prevT.set ch.index ch.text).getD ch.index "" = ch.text :=
          getD_set_self "" prevT ch.index ch.text (by rw [hTn]; exact hidx)
        have hae : altTexts ch.index (ch :: cs) = ch.text :: altTexts ch.index cs :=
          altTexts_cons_eq ch.index ch cs (by simp)
        obtain ⟨hpT, hchain⟩ := hfacts ch.index hi
        rw [hset] at hpT hchain
        constructor
        · rw [hae, List.getLastD_cons]
          exact hpT
        · intro hmono
          rw [hae, List.chain'_cons] at hmono
          obtain ⟨hpre, hmono'⟩ := hmono
          obtain ⟨t2, ht2⟩ := isPrefixOfData (prevT.getD ch.index "").data ch.text.data hpre
          have hd := hchain hmono'
          rw [deltaTextsFor_cons_eq ch.index _ ds' (by simp), concatTexts_cons]
          rw [hae, List.getLastD_cons]
          rw [show (pyStrDrop ch.text (pyLen (prevT.getD ch.index ""))).data =
              ch.text.data.drop (prevT.getD ch.index "").data.length from rfl]
          rw [← List.append_assoc]
          rw [show (prevT.getD ch.index "").data ++
              ch.text.data.drop (prevT.getD ch.index "").data.length = ch.text.data from by
            rw [← ht2, List.drop_left]]
          exact hd
      · have hbe : (ch.index == i) = false := by simp [hb]
        have hset : (prevT.set ch.index ch.text).getD i "" = prevT.getD i "" :=
          getD_set_ne "" prevT ch.index i ch.text (fun hh => hb hh.symm)
        obtain ⟨hpT, hchain⟩ := hfacts i hi
        rw [hset] at hpT hchain
        have hae : altTexts i (ch :: cs) = altTexts i cs := altTexts_cons_ne i ch cs hbe
        have hde : deltaTextsFor i ((ch.index, pyStrDrop ch.text (pyLen (prevT.getD ch.index "")),
            ch.token_ids.drop (prevN.getD ch.index 0)) :: ds') = deltaTextsFor i ds' :=
          deltaTextsFor_cons_ne i _ ds' (by simp [hb])
        refine ⟨?_, ?_⟩
        · rw [hae]
          exact hpT
        · intro hm
          rw [hae] at hm
          rw [hae, hde]
          exact hchain hm

/-- Per-alternative invariant of the whole delta stream: on a stream of
well-formed non-final emissions followed by one terminal emission, the
reconciler succeeds, and for every alternative whose cumulative texts form
a prefix chain from the retained text, that retained text followed by the
alternative's deltas spells out the alternative's last cumulative text. -/
theorem reconcile_spec (n : Nat) (fin : GenerationOutput) (hfin : fin.finished = true) :
    ∀ (gs : List GenerationOutput) (prevT : List String) (prevN : List Nat),
    prevT.length = n → prevN.length = n →
    (∀ g ∈ gs, g.finished = false) →
    (∀ g ∈ gs, ∀ ch ∈ g.outputs, ch.index < n ∧ ch.finish_reason = none) →
    ∃ ds, reconcileText prevT prevN (gs ++ [fin]) = .ok ds ∧
      ∀ i, i < n →
        (List.Chain' (fun a b => a.data.isPrefixOf b.data = true)
            ((prevT.getD i "") :: altTexts i ((gs.map (fun g => g.outputs)).flatten)) →
          (prevT.getD i "").data ++ (concatTexts (deltaTextsFor i ds)).data =
            ((altTexts i ((gs.map (fun g => g.outputs)).flatten)).getLastD
              (prevT.getD i "")).data) := by
  intro gs
  induction gs with
  | nil =>
    intro prevT prevN _ _ _ _
    refine ⟨[], ?_, ?_⟩
    · simp only [List.nil_append, reconcileText, if_pos hfin]
    · intro i _ _
      simp [deltaTextsFor, altTexts, concatTexts]
  | cons g gs ih =>
    intro prevT prevN hTn hNn hnf hwf
    have hgnf : g.finished = false := hnf g (by simp)
    obtain ⟨ds1, pT, pN, hchunk, hpTn, hpNn, hf1⟩ :=
      chunkLoop_spec n g.outputs prevT prevN hTn hNn (fun ch hc => hwf g (by simp) ch hc)
    obtain ⟨ds2, hrec, hf2⟩ := ih pT pN hpTn hpNn (fun g2 hg2 => hnf g2 (by simp [hg2]))
      (fun g2 hg2 ch hc => hwf g2 (by simp [hg2]) ch hc)
    refine ⟨ds1 ++ ds2, ?_, ?_⟩
    · show reconcileText prevT prevN (g :: (gs ++ [fin])) = .ok (ds1 ++ ds2)
      rw [reconcileText_cons, if_neg (by simp [hgnf]), hchunk]
      dsimp only
      rw [hrec]
    · intro i hi hmono
      have hflat : (((g :: gs).map (fun g => g.outputs)).flatten) =
          g.outputs ++ ((gs.map (fun g => g.outputs)).flatten) := by simp
      rw [hflat, altTexts_append] at hmono ⊢
      obtain ⟨hm1, hm2⟩ := chain_cons_append_split _ (altTexts i g.outputs) (prevT.getD i "")
        (altTexts i ((gs.map (fun g => g.outputs)).flatten)) hmono
      obtain ⟨hpT1, hc1⟩ := hf1 i hi
      have heq1 := hc1 hm1
      rw [← hpT1] at hm2
      have heq2 := hf2 i hi hm2
      rw [hpT1] at heq2
      rw [deltaTextsFor_append, concatTexts_append, ← List.append_assoc, heq1, heq2,
        getLastD_append_right]

/-- Claim C4 (amended): in delta mode the reconciler keeps per-alternative
previous text length and token count initialised fresh per request
(`[''] * n` and `[0] * n`) and reduces each emission for alternative `i` to
`text[len(previous_texts[i]):]` and `token_ids[previous_num_tokens[i]:]`;
and - PROVIDED each emission's text for alternative `i` extends the
previously emitted one as a prefix - the concatenation of all text deltas
for alternative `i` across the stream (the terminal `finished = true`
emission is never diffed) equals the final cumulative text of alternative
`i`. Without the prefix-monotonicity proviso the equality fails on streams
the engine itself produces: `rfind`-based stop truncation can shrink the
text mid-stream (see the counterexample). Stated for every `n`, every
alternative `i < n`, and arbitrary well-formed multi-alternative emissions
(in-range indices, no finish reason on streamed chunks). -/
theorem claim4_amended (n i : Nat) (gs : List GenerationOutput) (fin : GenerationOutput)
    (hi : i < n)
    (hnf : ∀ g ∈ gs, g.finished = false)
    (hwf : ∀ g ∈ gs, ∀ ch ∈ g.outputs, ch.index < n ∧ ch.finish_reason = none)
    (hfin : fin.finished = true)
    (hmono : List.Chain' (fun a b => a.data.isPrefixOf b.data = true)
      ("" :: altTexts i ((gs.map (fun g => g.outputs)).flatten))) :
    (llmGenerateIteratorDeltas n (gs ++ [fin])).map (fun ds => concatTexts (deltaTextsFor i ds)) =
      .ok ((altTexts i ((gs.map (fun g => g.outputs)).flatten)).getLastD "") := by
  obtain ⟨ds, hds, hfact⟩ := reconcile_spec n fin hfin gs (List.replicate n "")
    (List.replicate n 0) (by simp) (by simp) hnf hwf
  have hrepl : (List.replicate n ("" : String)).getD i "" = "" := getD_replicate_self "" n i
  have hcall : llmGenerateIteratorDeltas n (gs ++ [fin]) = .ok ds := hds
  rw [hcall]
  have hmap : (Except.ok ds : Except RunError _).map
      (fun ds => concatTexts (deltaTextsFor i ds)) = .ok (concatTexts (deltaTextsFor i ds)) := rfl
  rw [hmap]
  congr 1
  apply strDataInj
  have h2 := hfact i hi (by rw [hrepl]; exact hmono)
  rw [hrepl] at h2
  have h0 : ("" : String).data = [] := rfl
  rw [h0, List.nil_append] at h2
  exact h2

/-- A streamed chunk of alternative `i` for the claim C4 witness. -/
def chW2 (i : Nat) (t : String) (ids : List Nat) : CompletionChunk := ⟨i, t, ids, 0, none, none⟩

/-- A two-alternative delta-mode stream for the claim C4 witness: each
emission carries one chunk for alternative 0 (texts `"a"`, `"ab"`) and one
for alternative 1 (texts `"B"`, `"BC"`). -/
def gsW4 : List GenerationOutput :=
  [⟨"", false, [chW2 0 "a" [1], chW2 1 "B" [2]], [7], none, "r4w"⟩,
   ⟨"", false, [chW2 0 "ab" [1, 3], chW2 1 "BC" [2, 4]], [7], none, "r4w"⟩]

/-- The terminal emission of the claim C4 witness stream. -/
def finW : GenerationOutput := ⟨"", true, [⟨0, "zz", [7, 1, 1], 0, none, some "length"⟩], [7], none, "r4w"⟩

/-- Witness for claim C4: on the two-alternative prefix-monotone stream
`gsW4` with `n = 2`, the deltas of alternative 1 (`"B"`, `"C"`) concatenate
to its final cumulative text `"BC"`. -/
theorem claim4_witness :
    ((1 : Nat) < 2 ∧ (∀ g ∈ gsW4, g.finished = false) ∧
      (∀ g ∈ gsW4, ∀ ch ∈ g.outputs, ch.index < 2 ∧ ch.finish_reason = none) ∧
      finW.finished = true ∧
      List.Chain' (fun a b => a.data.isPrefixOf b.data = true)
        ("" :: altTexts 1 ((gsW4.map (fun g => g.outputs)).flatten))) ∧
    (llmGenerateIteratorDeltas 2 (gsW4 ++ [finW])).map
      (fun ds => concatTexts (deltaTextsFor 1 ds)) =
      .ok ((altTexts 1 ((gsW4.map (fun g => g.outputs)).flatten)).getLastD "") :=
  ⟨⟨by decide, by decide, by decide, rfl, by
      rw [show altTexts 1 ((gsW4.map (fun g => g.outputs)).flatten) = ["B", "BC"] from rfl]
      exact List.chain'_cons.mpr ⟨by decide, List.chain'_cons.mpr
        ⟨by decide, List.chain'_singleton _⟩⟩⟩,
   claim4_amended 2 1 gsW4 finW (by decide) (by decide) (by decide) rfl (by
      rw [show altTexts 1 ((gsW4.map (fun g => g.outputs)).flatten) = ["B", "BC"] from rfl]
      exact List.chain'_cons.mpr ⟨by decide, List.chain'_cons.mpr
        ⟨by decide, List.chain'_singleton _⟩⟩)⟩

/-- Counterexample to claim C4 as frozen: feeding the reconciler the stream
the engine itself produces in the run `ctxC4` (stream texts `"X"`, `"Xa"`,
`"X"` for alternative 0 - the last one shrunk by `rfind` stop truncation),
the concatenated text deltas of alternative 0 are `"X" ++ "a" ++ "" = "Xa"`,
but the final cumulative text of alternative 0 (in both the last diffed
emission and the terminal emission) is `"X"`. -/
theorem claim4_counterexample :
    (llmGenerateIteratorDeltas 1 (generateIterator ctxC4).emissions).map
      (fun ds => concatTexts (deltaTextsFor 0 ds)) = .ok "Xa" ∧
    ((generateIterator ctxC4).emissions.dropLast.getLast?.map
      (fun e => e.outputs.map (fun ch => ch.text))) = some ["X"] ∧
    ((generateIterator ctxC4).emissions.getLast?.map
      (fun e => e.outputs.map (fun ch => ch.text))) = some ["X"] ∧
    ("Xa" : String) ≠ "X" := by
  refine ⟨rfl, by decide, by decide, by decide⟩
